import Mathlib

/-!
Shallow embedding of the Snake reinforcement-learning core of the
`aboltabolkaj` repository: the game environment (`snake_game/game.py`,
with the distance-shaped variants in `snake_game_tabular_q_earning/game.py`
and `snake_game_dqn/game.py`), the tabular Q-learning agent
(`snake_game/agent.py`), and the multi-worker Q-table merge
(`snake_game_tabular_q_earning/train.py`).

Coordinates are integers (pixels); Python floats are modelled by `ℚ`;
Python dicts by insertion-ordered association lists; the random draws of
`random.randrange` / `random.random` / `random.randint` are passed in
explicitly as arguments.
-/

namespace Aboltabol

/-- The four headings of the snake (the strings `'RIGHT'`, `'DOWN'`,
`'LEFT'`, `'UP'` of the Python source). -/
inductive Dir where
  | RIGHT
  | DOWN
  | LEFT
  | UP
deriving DecidableEq, Repr

/-- State of the game environment: the fields of `SnakeGame` that the game
logic reads or writes (display/clock/speed, pure I/O, are omitted). -/
structure GameState where
  width : Int
  height : Int
  block_size : Int
  direction : Dir
  head : Int × Int
  snake : List (Int × Int)
  score : Nat
  food : Int × Int
deriving DecidableEq, Repr

/-- The clockwise direction table of `SnakeGame._move`. -/
def clock_wise : List Dir := [Dir.RIGHT, Dir.DOWN, Dir.LEFT, Dir.UP]

/-- `SnakeGame._move`: recompute the direction from the action
(`0` straight, `1` right turn via `(idx+1) % 4`, `2` left turn via
`(idx-1) % 4` on the index into `clock_wise`), then displace the head one
`block_size` in the new direction. -/
def move (s : GameState) (action : Nat) : GameState :=
  let idx : Int := clock_wise.indexOf s.direction
  let new_idx : Int :=
    if action = 1 then (idx + 1) % 4
    else if action = 2 then (idx - 1) % 4
    else idx
  let direction := clock_wise.getD new_idx.toNat Dir.RIGHT
  let x := s.head.1
  let y := s.head.2
  let head : Int × Int :=
    if direction = Dir.RIGHT then (x + s.block_size, y)
    else if direction = Dir.LEFT then (x - s.block_size, y)
    else if direction = Dir.DOWN then (x, y + s.block_size)
    else if direction = Dir.UP then (x, y - s.block_size)
    else (x, y)
  { s with direction := direction, head := head }

/-- `SnakeGame._is_collision` at an explicit point: outside the board, or
a member of `snake[1:]` (every segment but the first). -/
def is_collision (s : GameState) (point : Int × Int) : Bool :=
  if point.1 < 0 ∨ s.width ≤ point.1 ∨ point.2 < 0 ∨ s.height ≤ point.2 then true
  else if point ∈ s.snake.drop 1 then true
  else false

/-- `SnakeGame._place_food`: rejection sampling.  The infinite stream of
draws of `random.randrange(0, width, block_size)` pairs is modelled by the
explicit list `draws`; `none` models exhausting the modelled draws, i.e.
the unbounded recursion of the source never accepting. -/
def place_food (draws : List (Int × Int)) (snake : List (Int × Int)) :
    Option (Int × Int) :=
  match draws with
  | [] => none
  | d :: rest => if d ∈ snake then place_food rest snake else some d

/-- `SnakeGame.reset`: head at the middle of the board, a three-segment
snake extending to the left, score `0`, then `_place_food`. -/
def reset (s : GameState) (draws : List (Int × Int)) : Option GameState :=
  let head : Int × Int := (s.width / 2, s.height / 2)
  let snake : List (Int × Int) :=
    [head, (head.1 - s.block_size, head.2), (head.1 - 2 * s.block_size, head.2)]
  (place_food draws snake).map fun food =>
    { s with direction := Dir.RIGHT, head := head, snake := snake,
             score := 0, food := food }

/-- Return value of `SnakeGame.play_step` bundled with the post-step state. -/
structure StepResult where
  reward : Int
  game_over : Bool
  score : Nat
  state : GameState
deriving DecidableEq, Repr

/-- `snake_game/game.py`'s `SnakeGame.play_step`: move, prepend the new
head, short-circuit on collision with reward `-10`, else either eat
(`score += 1`, reward `10`, re-place food) or pop the tail (reward `0`). -/
def play_step (s : GameState) (action : Nat) (draws : List (Int × Int)) :
    Option StepResult :=
  let s1 := move s action
  let s2 := { s1 with snake := s1.head :: s1.snake }
  if is_collision s2 s2.head then
    some ⟨-10, true, s2.score, s2⟩
  else if s2.head = s2.food then
    (place_food draws s2.snake).map fun f =>
      ⟨10, false, s2.score + 1, { s2 with score := s2.score + 1, food := f }⟩
  else
    some ⟨0, false, s2.score, { s2 with snake := s2.snake.dropLast }⟩

/-- `SnakeGame.play_step` of the distance-shaping variants
(`snake_game_tabular_q_earning/game.py` and `snake_game_dqn/game.py`):
identical to the baseline except that a non-terminal, non-food step is
rewarded `+1` when the Manhattan distance to the food strictly decreased
and `-1` otherwise. -/
def play_step_shaped (s : GameState) (action : Nat) (draws : List (Int × Int)) :
    Option StepResult :=
  let current_distance := |s.head.1 - s.food.1| + |s.head.2 - s.food.2|
  let s1 := move s action
  let s2 := { s1 with snake := s1.head :: s1.snake }
  if is_collision s2 s2.head then
    some ⟨-10, true, s2.score, s2⟩
  else if s2.head = s2.food then
    (place_food draws s2.snake).map fun f =>
      ⟨10, false, s2.score + 1, { s2 with score := s2.score + 1, food := f }⟩
  else
    let new_distance := |s2.head.1 - s2.food.1| + |s2.head.2 - s2.food.2|
    some ⟨if new_distance < current_distance then 1 else -1, false, s2.score,
          { s2 with snake := s2.snake.dropLast }⟩

/-! ### The tabular Q-learning agent (`snake_game/agent.py`) -/

/-- A key of the Q-table: the 11-feature state tuple produced by
`Agent.get_state`, modelled as a list of naturals. -/
abbrev QState := List Nat

/-- The Q-table: a Python dict mapping state tuples to per-action value
lists, modelled as an insertion-ordered association list. -/
abbrev QTable := List (QState × List ℚ)

/-- `d[k] = v` on a Python dict modelled as an association list: replace
the (first) binding of `k` in place, or append a fresh binding at the
end. -/
def dict_set {α β : Type} [BEq α] (t : List (α × β)) (k : α) (v : β) :
    List (α × β) :=
  match t with
  | [] => [(k, v)]
  | (k', v') :: rest =>
      if k' == k then (k, v) :: rest else (k', v') :: dict_set rest k v

/-- `[0] * n`: the fresh all-zero action-value list. -/
def zeros (n : Nat) : List ℚ := List.replicate n 0

/-- Python's `max` on a (nonempty) list of numbers. -/
def pyMax : List ℚ → ℚ
  | [] => 0
  | x :: xs => xs.foldl max x

/-- Scanning loop of `np.argmax`: keeps the first index attaining the
running maximum (strict improvement moves the index). -/
def np_argmax_go (i bi : Nat) (bv : ℚ) : List ℚ → Nat
  | [] => bi
  | x :: xs => if bv < x then np_argmax_go (i + 1) i x xs
               else np_argmax_go (i + 1) bi bv xs

/-- `np.argmax` on a list: the first index of the maximum (`0` on `[]`). -/
def np_argmax : List ℚ → Nat
  | [] => 0
  | x :: xs => np_argmax_go 1 0 x xs

/-- The tabular Q-learning `Agent` of `snake_game/agent.py`. -/
structure Agent where
  lr : ℚ
  gamma : ℚ
  epsilon : ℚ
  epsilon_decay : ℚ
  epsilon_min : ℚ
  q_table : QTable
  n_actions : Nat
deriving DecidableEq, Repr

/-- `if state not in self.q_table: self.q_table[state] = [0] * self.n_actions`:
the lazy zero-initialization both `get_action` and `train_short_memory`
start with. -/
def init_state (t : QTable) (s : QState) (n : Nat) : QTable :=
  if (List.lookup s t).isSome then t else dict_set t s (zeros n)

/-- `Agent.get_action`: zero-initialize an unseen state, then pick either
the exploration action `ra` (when the uniform draw `r` is below epsilon)
or `np.argmax` of the state's value list.  Returns the action together
with the (possibly grown) agent. -/
def get_action (ag : Agent) (state : QState) (r : ℚ) (ra : Nat) : Nat × Agent :=
  let q_table := init_state ag.q_table state ag.n_actions
  let action :=
    if r < ag.epsilon then ra
    else np_argmax ((List.lookup state q_table).getD [])
  (action, { ag with q_table := q_table })

/-- The TD target of `Agent.train_short_memory`: the reward when `done`,
else `reward + gamma * max(Q[next_state])` over the table `t` (which has
already been zero-initialized for `next_state`). -/
def td_target (gamma : ℚ) (t : QTable) (reward : ℚ) (next_state : QState)
    (done : Bool) : ℚ :=
  if done then reward
  else reward + gamma * pyMax ((List.lookup next_state t).getD [])

/-- `Agent.train_short_memory`: zero-initialize unseen states, apply the
one-step Q-learning update
`Q[s][a] ← Q[s][a] + lr * (target − Q[s][a])`, then decay epsilon when it
is still above `epsilon_min`. -/
def train_short_memory (ag : Agent) (state : QState) (action : Nat)
    (reward : ℚ) (next_state : QState) (done : Bool) : Agent :=
  let t2 := init_state (init_state ag.q_table state ag.n_actions) next_state
    ag.n_actions
  let predict := ((List.lookup state t2).getD []).getD action 0
  let target := td_target ag.gamma t2 reward next_state done
  let t3 := dict_set t2 state
    (((List.lookup state t2).getD []).set action
      (predict + ag.lr * (target - predict)))
  let epsilon :=
    if ag.epsilon_min < ag.epsilon then ag.epsilon * ag.epsilon_decay
    else ag.epsilon
  { ag with q_table := t3, epsilon := epsilon }

/-! ### The multi-worker merge (`snake_game_tabular_q_earning/train.py`) -/

/-- Elementwise addition of two value vectors (`merged[state] += np.array(q_vals)`). -/
def vec_add (a b : List ℚ) : List ℚ := List.zipWith (· + ·) a b

/-- The body of the double loop of `merge_q_tables`, processing one
`(state, q_vals)` item against the running `(merged, counts)` pair. -/
def merge_step (acc : QTable × List (QState × Nat)) (e : QState × List ℚ) :
    QTable × List (QState × Nat) :=
  match List.lookup e.1 acc.1 with
  | none => (dict_set acc.1 e.1 e.2, dict_set acc.2 e.1 1)
  | some v =>
      (dict_set acc.1 e.1 (vec_add v e.2),
       dict_set acc.2 e.1 ((List.lookup e.1 acc.2).getD 0 + 1))

/-- `merge_q_tables`: accumulate elementwise sums and per-key counts over
all worker tables, then divide every accumulated vector by its count. -/
def merge_q_tables (q_tables : List QTable) : QTable :=
  let acc := q_tables.foldl (fun acc table => table.foldl merge_step acc) ([], [])
  acc.1.map (fun p =>
    (p.1, p.2.map (fun x => x / (((List.lookup p.1 acc.2).getD 0 : Nat) : ℚ))))

/-! ### Spec-side notions -/

/-- The cyclic successor in the order `[RIGHT, DOWN, LEFT, UP]` —
the direction one position after, as the spec words it. -/
def cwNext : Dir → Dir
  | Dir.RIGHT => Dir.DOWN
  | Dir.DOWN => Dir.LEFT
  | Dir.LEFT => Dir.UP
  | Dir.UP => Dir.RIGHT

/-- The cyclic predecessor in the order `[RIGHT, DOWN, LEFT, UP]`. -/
def cwPrev : Dir → Dir
  | Dir.RIGHT => Dir.UP
  | Dir.DOWN => Dir.RIGHT
  | Dir.LEFT => Dir.DOWN
  | Dir.UP => Dir.LEFT

/-- A point displaced by one `block`-sized unit in direction `d`:
`x+block` for RIGHT, `x-block` for LEFT, `y+block` for DOWN, `y-block`
for UP. -/
def displaced (p : Int × Int) (d : Dir) (block : Int) : Int × Int :=
  match d with
  | Dir.RIGHT => (p.1 + block, p.2)
  | Dir.LEFT => (p.1 - block, p.2)
  | Dir.DOWN => (p.1, p.2 + block)
  | Dir.UP => (p.1, p.2 - block)

/-- The cells `random.randrange(0, w, b) × random.randrange(0, h, b)` can
produce: grid-aligned points inside the board. -/
def is_grid_cell (w h b : Int) (p : Int × Int) : Prop :=
  (∃ i : Int, 0 ≤ i ∧ p.1 = b * i ∧ p.1 < w) ∧
  (∃ j : Int, 0 ≤ j ∧ p.2 = b * j ∧ p.2 < h)

/-- The value vectors carried by the items of `es` whose key is `key`,
in order. -/
def entriesFor (key : QState) (es : List (QState × List ℚ)) : List (List ℚ) :=
  es.filterMap fun e => if e.1 = key then some e.2 else none

/-- Folding a batch of value vectors into an optional running
accumulator, the way the merge loop does: the first vector seeds the
accumulator, later ones are `vec_add`-ed on. -/
def accVals (mv : Option (List ℚ)) (vs : List (List ℚ)) : Option (List ℚ) :=
  match mv, vs with
  | none, [] => none
  | none, v :: rest => some (rest.foldl vec_add v)
  | some v0, vs => some (vs.foldl vec_add v0)

/-! ### Concrete states used by the witnesses -/

/-- A small concrete game state: a 5×5 board with unit blocks, the snake
heading right one cell short of the food. -/
def demoState : GameState :=
  { width := 5, height := 5, block_size := 1, direction := Dir.RIGHT,
    head := (2, 2), snake := [(2, 2), (1, 2), (0, 2)], score := 0,
    food := (3, 2) }

/-- `demoState` with the food far away in the corner. -/
def demoFarFood : GameState := { demoState with food := (0, 0) }

/-- A concrete state about to run head-first into the right wall. -/
def demoWallState : GameState :=
  { width := 5, height := 5, block_size := 1, direction := Dir.RIGHT,
    head := (4, 2), snake := [(4, 2), (3, 2), (2, 2)], score := 0,
    food := (0, 0) }

/-- A concrete fresh agent with the default hyperparameters of
`snake_game/agent.py` (epsilon already cooled to `1/2`). -/
def demoAgent : Agent :=
  { lr := 1/2, gamma := 9/10, epsilon := 1/2, epsilon_decay := 995/1000,
    epsilon_min := 1/100, q_table := [], n_actions := 3 }

/-- A concrete agent whose epsilon sits just above a large `epsilon_min`
while its decay is steep, so one decay step jumps far below the
minimum. -/
def demoSteepAgent : Agent :=
  { lr := 1/10, gamma := 9/10, epsilon := 2, epsilon_decay := 1/10,
    epsilon_min := 1, q_table := [], n_actions := 3 }

/-! ## Theorems -/

/-- **C1.** A step first turns the heading through the cyclic order
`[RIGHT, DOWN, LEFT, UP]` (one position forward for action `1`, one
position back for action `2`, unchanged for action `0`), and the new head
is the old head displaced by exactly one `block_size` unit in the new
direction. -/
theorem move_turn_and_displace (s : GameState) (a : Nat) (ha : a ≤ 2) :
    (move s a).direction =
      (if a = 1 then cwNext s.direction
       else if a = 2 then cwPrev s.direction
       else s.direction) ∧
    (move s a).head = displaced s.head ((move s a).direction) s.block_size := by
  obtain ⟨w, h, b, d, p, sn, sc, f⟩ := s
  interval_cases a <;> cases d <;>
    simp [move, clock_wise, cwNext, cwPrev, displaced]

/-- Witness for C1 at a concrete state and action `1`. -/
theorem move_turn_and_displace_witness :
    (1 : Nat) ≤ 2 ∧
    (move { width := 5, height := 5, block_size := 1, direction := Dir.RIGHT,
            head := (2, 2), snake := [(2, 2), (1, 2), (0, 2)], score := 0,
            food := (4, 2) } 1).direction = Dir.DOWN ∧
    (move { width := 5, height := 5, block_size := 1, direction := Dir.RIGHT,
            head := (2, 2), snake := [(2, 2), (1, 2), (0, 2)], score := 0,
            food := (4, 2) } 1).head = (2, 3) := by
  refine ⟨by decide, ?_⟩
  have h := move_turn_and_displace
    { width := 5, height := 5, block_size := 1, direction := Dir.RIGHT,
      head := (2, 2), snake := [(2, 2), (1, 2), (0, 2)], score := 0,
      food := (4, 2) } 1 (by decide)
  exact ⟨h.1, by rw [h.2, h.1]; decide⟩

@[simp] theorem move_width (s : GameState) (a : Nat) :
    (move s a).width = s.width := rfl

@[simp] theorem move_height (s : GameState) (a : Nat) :
    (move s a).height = s.height := rfl

@[simp] theorem move_block_size (s : GameState) (a : Nat) :
    (move s a).block_size = s.block_size := rfl

@[simp] theorem move_snake (s : GameState) (a : Nat) :
    (move s a).snake = s.snake := rfl

@[simp] theorem move_score (s : GameState) (a : Nat) :
    (move s a).score = s.score := rfl

@[simp] theorem move_food (s : GameState) (a : Nat) :
    (move s a).food = s.food := rfl

/-- What `_is_collision` decides, as a proposition. -/
theorem is_collision_iff (s : GameState) (p : Int × Int) :
    is_collision s p = true ↔
      (p.1 < 0 ∨ s.width ≤ p.1 ∨ p.2 < 0 ∨ s.height ≤ p.2 ∨
       p ∈ s.snake.drop 1) := by
  unfold is_collision
  split_ifs with h1 h2 <;> simp_all
  tauto

/-- `_place_food` accepts exactly an unoccupied draw. -/
theorem place_food_spec (draws snake : List (Int × Int)) (f : Int × Int)
    (h : place_food draws snake = some f) : f ∉ snake ∧ f ∈ draws := by
  induction draws with
  | nil => simp [place_food] at h
  | cons d rest ih =>
      rw [place_food] at h
      by_cases hd : d ∈ snake
      · rw [if_pos hd] at h
        exact ⟨(ih h).1, List.mem_cons_of_mem _ (ih h).2⟩
      · rw [if_neg hd] at h
        injection h with h
        subst h
        exact ⟨hd, List.mem_cons_self _ _⟩

/-- **C4.** Whenever the placement procedure terminates, the food is not
on the snake body: immediately after every `reset`, and after every food
re-placement triggered by eating (in the baseline and in the
distance-shaped step alike). -/
theorem food_not_on_snake :
    (∀ s draws s2, reset s draws = some s2 → s2.food ∉ s2.snake) ∧
    (∀ s a draws out, play_step s a draws = some out →
      out.game_over = false → (move s a).head = s.food →
      out.state.food ∉ out.state.snake) ∧
    (∀ s a draws out, play_step_shaped s a draws = some out →
      out.game_over = false → (move s a).head = s.food →
      out.state.food ∉ out.state.snake) := by
  refine ⟨?_, ?_, ?_⟩
  · intro s draws s2 h
    simp only [reset, Option.map_eq_some'] at h
    obtain ⟨f, hpf, hs2⟩ := h
    subst hs2
    simpa using (place_food_spec _ _ _ hpf).1
  · intro s a draws out h hdone hfood
    simp only [play_step] at h
    split at h
    · injection h with h; subst h; simp at hdone
    · split at h
      · simp only [Option.map_eq_some'] at h
        obtain ⟨f, hpf, hout⟩ := h
        subst hout
        simpa using (place_food_spec _ _ _ hpf).1
      · rename_i hne
        exfalso
        apply hne
        simpa using hfood
  · intro s a draws out h hdone hfood
    simp only [play_step_shaped] at h
    split at h
    · injection h with h; subst h; simp at hdone
    · split at h
      · simp only [Option.map_eq_some'] at h
        obtain ⟨f, hpf, hout⟩ := h
        subst hout
        simpa using (place_food_spec _ _ _ hpf).1
      · rename_i hne
        exfalso
        apply hne
        simpa using hfood

/-- Witness for C4: a concrete `reset` whose first draw lands on the
snake and second draw is accepted; the placed food avoids the body. -/
theorem food_not_on_snake_witness :
    reset demoState [(2, 2), (0, 0)] = some demoFarFood ∧
    demoFarFood.food ∉ demoFarFood.snake := by
  refine ⟨by decide, ?_⟩
  exact food_not_on_snake.1 demoState [(2, 2), (0, 0)] demoFarFood (by decide)

/-- **C9.** `_place_food` is uncapped rejection sampling: when every
grid-aligned cell is occupied by the snake body it never accepts, for
every sequence of grid draws (the modelled draw list is exhausted, i.e.
the source recursion never returns); and it returns a cell only when some
draw hits a cell outside the body. -/
theorem place_food_rejection (w h b : Int) (draws snake : List (Int × Int))
    (hdraws : ∀ d ∈ draws, is_grid_cell w h b d)
    (hfull : ∀ c, is_grid_cell w h b c → c ∈ snake) :
    place_food draws snake = none ∧
    (∀ draws2 f, place_food draws2 snake = some f →
      f ∉ snake ∧ f ∈ draws2) := by
  constructor
  · revert hdraws
    induction draws with
    | nil => intro _; rfl
    | cons d rest ih =>
        intro hdraws
        have hd : d ∈ snake := hfull d (hdraws d (List.mem_cons_self d rest))
        rw [place_food, if_pos hd]
        exact ih fun x hx => hdraws x (List.mem_cons_of_mem d hx)
  · intro draws2 f hf
    exact place_food_spec draws2 snake f hf

/-- Witness for C9: on a 1×1 board fully occupied by the snake, the
placement never accepts. -/
theorem place_food_rejection_witness :
    place_food [((0 : Int), (0 : Int)), (0, 0)] [((0 : Int), (0 : Int))] =
      none := by
  refine (place_food_rejection 1 1 1 [(0, 0), (0, 0)] [(0, 0)] ?_ ?_).1
  · intro d hd
    have hd' : d = (0, 0) := by simpa using hd
    subst hd'
    exact ⟨⟨0, by norm_num⟩, ⟨0, by norm_num⟩⟩
  · rintro ⟨x, y⟩ ⟨⟨i, hi0, hx, hxw⟩, ⟨j, hj0, hy, hyh⟩⟩
    have hx0 : x = 0 := by omega
    have hy0 : y = 0 := by omega
    subst hx0; subst hy0
    simp

/-- **C2.** On a non-terminal step the body length grows by exactly one
when the new head lands on the food (head prepended, no tail removed) and
is unchanged otherwise (head prepended, tail popped). -/
theorem play_step_body_length (s : GameState) (a : Nat)
    (draws : List (Int × Int)) (out : StepResult)
    (hstep : play_step s a draws = some out)
    (hdone : out.game_over = false) :
    out.state.snake.length =
      if (move s a).head = s.food then s.snake.length + 1
      else s.snake.length := by
  simp only [play_step] at hstep
  split at hstep
  · injection hstep with h; subst h; simp at hdone
  · split at hstep
    · rename_i heq
      simp only [Option.map_eq_some'] at hstep
      obtain ⟨f, hpf, hout⟩ := hstep
      subst hout
      rw [if_pos (by simpa using heq)]
      simp
    · rename_i hne
      injection hstep with h
      subst h
      rw [if_neg (by simpa using hne)]
      simp [List.length_dropLast]

/-- Witness for C2: a concrete eating step grows the body from 3 to 4. -/
theorem play_step_body_length_witness :
    play_step demoState 0 [(0, 0)] =
      some ⟨10, false, 1,
        { width := 5, height := 5, block_size := 1, direction := Dir.RIGHT,
          head := (3, 2), snake := [(3, 2), (2, 2), (1, 2), (0, 2)],
          score := 1, food := (0, 0) }⟩ ∧
    (StepResult.mk 10 false 1
        { width := 5, height := 5, block_size := 1, direction := Dir.RIGHT,
          head := (3, 2), snake := [(3, 2), (2, 2), (1, 2), (0, 2)],
          score := 1, food := (0, 0) }).state.snake.length =
      demoState.snake.length + 1 := by
  refine ⟨by decide, ?_⟩
  have h := play_step_body_length demoState 0 [(0, 0)]
    ⟨10, false, 1,
      { width := 5, height := 5, block_size := 1, direction := Dir.RIGHT,
        head := (3, 2), snake := [(3, 2), (2, 2), (1, 2), (0, 2)],
        score := 1, food := (0, 0) }⟩ (by decide) (by decide)
  rwa [if_pos (by decide)] at h

/-- **C3.** `play_step` terminates the episode exactly when the new head
is out of bounds or hits a body segment other than the new head itself;
on termination the reward is `-10`, the returned and stored scores are
unchanged, and the body keeps the prepended head and its tail. -/
theorem play_step_game_over (s : GameState) (a : Nat)
    (draws : List (Int × Int)) (out : StepResult)
    (hstep : play_step s a draws = some out) :
    (out.game_over = true ↔
      ((move s a).head.1 < 0 ∨ s.width ≤ (move s a).head.1 ∨
       (move s a).head.2 < 0 ∨ s.height ≤ (move s a).head.2 ∨
       (move s a).head ∈ s.snake)) ∧
    (out.game_over = true →
      out.reward = -10 ∧ out.score = s.score ∧ out.state.score = s.score ∧
      out.state.snake = (move s a).head :: s.snake) := by
  simp only [play_step] at hstep
  split at hstep
  · rename_i hc
    injection hstep with h
    subst h
    rw [is_collision_iff] at hc
    refine ⟨⟨fun _ => by simpa using hc, fun _ => rfl⟩,
      fun _ => ⟨rfl, rfl, rfl, by simp⟩⟩
  · rename_i hc
    rw [is_collision_iff] at hc
    have hc' : ¬((move s a).head.1 < 0 ∨ s.width ≤ (move s a).head.1 ∨
        (move s a).head.2 < 0 ∨ s.height ≤ (move s a).head.2 ∨
        (move s a).head ∈ s.snake) := by
      simpa using hc
    split at hstep
    · simp only [Option.map_eq_some'] at hstep
      obtain ⟨f, hpf, hout⟩ := hstep
      subst hout
      exact ⟨by simpa using hc', by simp⟩
    · injection hstep with h
      subst h
      exact ⟨by simpa using hc', by simp⟩

/-- Witness for C3: running into the right wall ends the game with reward
`-10`, an unchanged score, and the untrimmed body. -/
theorem play_step_game_over_witness :
    play_step demoWallState 0 [] =
      some ⟨-10, true, 0,
        { width := 5, height := 5, block_size := 1, direction := Dir.RIGHT,
          head := (5, 2), snake := [(5, 2), (4, 2), (3, 2), (2, 2)],
          score := 0, food := (0, 0) }⟩ ∧
    (StepResult.mk (-10) true 0
        { width := 5, height := 5, block_size := 1, direction := Dir.RIGHT,
          head := (5, 2), snake := [(5, 2), (4, 2), (3, 2), (2, 2)],
          score := 0, food := (0, 0) }).game_over = true ∧
    (-10 : Int) = -10 ∧ (0 : Nat) = demoWallState.score := by
  refine ⟨by decide, ?_, ?_, ?_⟩
  · have h := play_step_game_over demoWallState 0 []
      ⟨-10, true, 0,
        { width := 5, height := 5, block_size := 1, direction := Dir.RIGHT,
          head := (5, 2), snake := [(5, 2), (4, 2), (3, 2), (2, 2)],
          score := 0, food := (0, 0) }⟩ (by decide)
    exact h.1.mpr (by decide)
  · rfl
  · decide

/-- **C8.** In the distance-shaping variants a non-terminal, non-food
step is rewarded `+1` exactly when the Manhattan distance from the new
head to the food strictly decreased, and `-1` otherwise. -/
theorem play_step_shaped_reward (s : GameState) (a : Nat)
    (draws : List (Int × Int)) (out : StepResult)
    (hstep : play_step_shaped s a draws = some out)
    (hdone : out.game_over = false)
    (hfood : (move s a).head ≠ s.food) :
    out.reward =
      if |(move s a).head.1 - s.food.1| + |(move s a).head.2 - s.food.2| <
         |s.head.1 - s.food.1| + |s.head.2 - s.food.2|
      then 1 else -1 := by
  simp only [play_step_shaped] at hstep
  split at hstep
  · injection hstep with h; subst h; simp at hdone
  · split at hstep
    · rename_i heq
      exact absurd (by simpa using heq) hfood
    · injection hstep with h
      subst h
      simp

/-- Witness for C8: a step away from distance 4 to distance 5 earns
reward `-1`. -/
theorem play_step_shaped_reward_witness :
    play_step_shaped demoFarFood 0 [] =
      some ⟨-1, false, 0,
        { width := 5, height := 5, block_size := 1, direction := Dir.RIGHT,
          head := (3, 2), snake := [(3, 2), (2, 2), (1, 2)],
          score := 0, food := (0, 0) }⟩ ∧
    (StepResult.mk (-1) false 0
        { width := 5, height := 5, block_size := 1, direction := Dir.RIGHT,
          head := (3, 2), snake := [(3, 2), (2, 2), (1, 2)],
          score := 0, food := (0, 0) }).reward = -1 := by
  refine ⟨by decide, ?_⟩
  have h := play_step_shaped_reward demoFarFood 0 []
    ⟨-1, false, 0,
      { width := 5, height := 5, block_size := 1, direction := Dir.RIGHT,
        head := (3, 2), snake := [(3, 2), (2, 2), (1, 2)],
        score := 0, food := (0, 0) }⟩ (by decide) (by decide) (by decide)
  exact h

/-! ### Dict and argmax helper lemmas -/

theorem lookup_dict_set_self {α β : Type} [BEq α] [LawfulBEq α]
    (t : List (α × β)) (k : α) (v : β) :
    List.lookup k (dict_set t k v) = some v := by
  induction t with
  | nil => simp [dict_set, List.lookup_cons]
  | cons p rest ih =>
      obtain ⟨k2, v2⟩ := p
      by_cases h : k2 = k
      · subst h
        simp [dict_set, List.lookup_cons]
      · have hb : (k == k2) = false := beq_eq_false_iff_ne.mpr (Ne.symm h)
        simp [dict_set, h, List.lookup_cons, hb, ih]

theorem lookup_dict_set_ne {α β : Type} [BEq α] [LawfulBEq α]
    (t : List (α × β)) (k k2 : α) (v : β) (h : k2 ≠ k) :
    List.lookup k2 (dict_set t k v) = List.lookup k2 t := by
  have hb : (k2 == k) = false := beq_eq_false_iff_ne.mpr h
  induction t with
  | nil => simp [dict_set, List.lookup_cons, hb]
  | cons p rest ih =>
      obtain ⟨k3, v3⟩ := p
      by_cases hk : k3 = k
      · subst hk
        simp [dict_set, List.lookup_cons, hb]
      · by_cases hk2 : k2 = k3
        · subst hk2
          simp [dict_set, hk, List.lookup_cons]
        · have hb2 : (k2 == k3) = false := beq_eq_false_iff_ne.mpr hk2
          simp [dict_set, hk, List.lookup_cons, hb2, ih]

theorem np_argmax_go_of_le (l : List ℚ) :
    ∀ i bi bv, (∀ x ∈ l, ¬ bv < x) → np_argmax_go i bi bv l = bi := by
  induction l with
  | nil => intro i bi bv _; rfl
  | cons x xs ih =>
      intro i bi bv h
      rw [np_argmax_go, if_neg (h x (List.mem_cons_self x xs))]
      exact ih _ _ _ fun y hy => h y (List.mem_cons_of_mem _ hy)

theorem np_argmax_zeros (n : Nat) : np_argmax (zeros n) = 0 := by
  cases n with
  | zero => rfl
  | succ m =>
      rw [zeros, List.replicate_succ, np_argmax]
      apply np_argmax_go_of_le
      intro x hx
      have hx0 : x = 0 := List.eq_of_mem_replicate hx
      simp [hx0]

/-- **C10.** `get_action` mutates the agent only by zero-initializing a
missing state key: hyperparameters and epsilon are untouched, a present
key leaves the agent identical, other table entries are preserved, and a
fresh state under greedy selection (draw not below epsilon) returns
action `0` — the first-index argmax of the zero vector. -/
theorem get_action_effect (ag : Agent) (state : QState) (r : ℚ) (ra : Nat) :
    ((get_action ag state r ra).2.lr = ag.lr ∧
     (get_action ag state r ra).2.gamma = ag.gamma ∧
     (get_action ag state r ra).2.epsilon = ag.epsilon ∧
     (get_action ag state r ra).2.epsilon_decay = ag.epsilon_decay ∧
     (get_action ag state r ra).2.epsilon_min = ag.epsilon_min ∧
     (get_action ag state r ra).2.n_actions = ag.n_actions) ∧
    (List.lookup state ag.q_table = none →
      (get_action ag state r ra).2.q_table =
        dict_set ag.q_table state (zeros ag.n_actions) ∧
      List.lookup state (get_action ag state r ra).2.q_table =
        some (zeros ag.n_actions) ∧
      (∀ s2, s2 ≠ state →
        List.lookup s2 (get_action ag state r ra).2.q_table =
          List.lookup s2 ag.q_table)) ∧
    ((List.lookup state ag.q_table).isSome →
      (get_action ag state r ra).2 = ag) ∧
    (List.lookup state ag.q_table = none → ¬ r < ag.epsilon →
      (get_action ag state r ra).1 = 0) := by
  refine ⟨⟨rfl, rfl, rfl, rfl, rfl, rfl⟩, ?_, ?_, ?_⟩
  · intro h
    have hq : (get_action ag state r ra).2.q_table =
        dict_set ag.q_table state (zeros ag.n_actions) := by
      simp [get_action, init_state, h]
    refine ⟨hq, ?_, ?_⟩
    · rw [hq]
      exact lookup_dict_set_self _ _ _
    · intro s2 hs2
      rw [hq]
      exact lookup_dict_set_ne _ _ _ _ hs2
  · intro h
    simp [get_action, init_state, h]
  · intro h hr
    simp [get_action, init_state, h, hr, lookup_dict_set_self, np_argmax_zeros]

/-- Witness for C10: greedy selection on a fresh state inserts the zero
vector, keeps epsilon, and returns action `0`. -/
theorem get_action_effect_witness :
    (get_action demoAgent [7] 1 2).1 = 0 ∧
    (get_action demoAgent [7] 1 2).2.q_table =
      dict_set demoAgent.q_table [7] (zeros demoAgent.n_actions) ∧
    (get_action demoAgent [7] 1 2).2.epsilon = demoAgent.epsilon := by
  have h := get_action_effect demoAgent [7] 1 2
  exact ⟨h.2.2.2 rfl (by norm_num [demoAgent]),
         (h.2.1 rfl).1, h.1.2.2.1⟩

/-- Looking a key up after the lazy zero-initialization of
`init_state`. -/
theorem lookup_init_state (t : QTable) (s s2 : QState) (n : Nat) :
    List.lookup s2 (init_state t s n) =
      if s2 = s then some ((List.lookup s2 t).getD (zeros n))
      else List.lookup s2 t := by
  unfold init_state
  by_cases hs : (List.lookup s t).isSome
  · rw [if_pos hs]
    by_cases h2 : s2 = s
    · subst h2
      rw [if_pos rfl]
      obtain ⟨w, hw⟩ := Option.isSome_iff_exists.mp hs
      rw [hw]
      rfl
    · rw [if_neg h2]
  · rw [if_neg hs]
    by_cases h2 : s2 = s
    · subst h2
      rw [if_pos rfl, lookup_dict_set_self]
      rw [Option.not_isSome_iff_eq_none.mp hs]
      rfl
    · rw [if_neg h2, lookup_dict_set_ne _ _ _ _ h2]

/-- **C5.** The tabular update writes exactly
`Q[s][a] + lr * (target − Q[s][a])` (with unseen states zero-initialized
first and `target = r` when done, else `r + gamma * max Q[s']`), and for
a learning rate in `[0, 1]` the new entry is no farther from the target
than the old one. -/
theorem train_short_memory_update (ag : Agent) (state : QState)
    (action : Nat) (reward : ℚ) (next_state : QState) (done : Bool)
    (hlr0 : 0 ≤ ag.lr) (hlr1 : ag.lr ≤ 1)
    (hlen : ∀ s v, List.lookup s ag.q_table = some v →
      v.length = ag.n_actions)
    (ha : action < ag.n_actions) :
    ∀ t2 predict target,
      t2 = init_state (init_state ag.q_table state ag.n_actions) next_state
        ag.n_actions →
      predict = ((List.lookup state t2).getD []).getD action 0 →
      target = td_target ag.gamma t2 reward next_state done →
      ((List.lookup state
          (train_short_memory ag state action reward next_state
            done).q_table).getD []).getD action 0 =
        predict + ag.lr * (target - predict) ∧
      |predict + ag.lr * (target - predict) - target| ≤ |predict - target| := by
  intro t2 predict target ht hp htg
  subst ht hp htg
  constructor
  · have hq : (train_short_memory ag state action reward next_state
        done).q_table =
        dict_set
          (init_state (init_state ag.q_table state ag.n_actions) next_state
            ag.n_actions)
          state
          (((List.lookup state
              (init_state (init_state ag.q_table state ag.n_actions)
                next_state ag.n_actions)).getD []).set action
            (((List.lookup state
                (init_state (init_state ag.q_table state ag.n_actions)
                  next_state ag.n_actions)).getD []).getD action 0 +
              ag.lr *
                (td_target ag.gamma
                    (init_state (init_state ag.q_table state ag.n_actions)
                      next_state ag.n_actions) reward next_state done -
                  ((List.lookup state
                      (init_state (init_state ag.q_table state ag.n_actions)
                        next_state ag.n_actions)).getD []).getD action 0))) := by
      simp only [train_short_memory]
    rw [hq, lookup_dict_set_self]
    have hv : ∃ v, List.lookup state
        (init_state (init_state ag.q_table state ag.n_actions) next_state
          ag.n_actions) = some v ∧ v.length = ag.n_actions := by
      rw [lookup_init_state]
      have h1 : List.lookup state
          (init_state ag.q_table state ag.n_actions) =
          some ((List.lookup state ag.q_table).getD (zeros ag.n_actions)) := by
        rw [lookup_init_state, if_pos rfl]
      have hlen1 :
          ((List.lookup state ag.q_table).getD (zeros ag.n_actions)).length =
            ag.n_actions := by
        cases hw : List.lookup state ag.q_table with
        | none => simp [zeros]
        | some w => simpa using hlen state w hw
      by_cases h2 : state = next_state
      · rw [if_pos h2, h1]
        exact ⟨_, rfl, hlen1⟩
      · rw [if_neg h2, h1]
        exact ⟨_, rfl, hlen1⟩
    obtain ⟨v, hv, hvlen⟩ := hv
    rw [hv]
    have halt : action < v.length := hvlen ▸ ha
    rw [Option.getD_some, List.getD_eq_getElem _ _ (by simpa using halt)]
    simp [halt]
  · have habs : ((List.lookup state
        (init_state (init_state ag.q_table state ag.n_actions) next_state
          ag.n_actions)).getD []).getD action 0 +
        ag.lr *
          (td_target ag.gamma
              (init_state (init_state ag.q_table state ag.n_actions)
                next_state ag.n_actions) reward next_state done -
            ((List.lookup state
                (init_state (init_state ag.q_table state ag.n_actions)
                  next_state ag.n_actions)).getD []).getD action 0) -
        td_target ag.gamma
          (init_state (init_state ag.q_table state ag.n_actions) next_state
            ag.n_actions) reward next_state done =
        (1 - ag.lr) *
          (((List.lookup state
              (init_state (init_state ag.q_table state ag.n_actions)
                next_state ag.n_actions)).getD []).getD action 0 -
            td_target ag.gamma
              (init_state (init_state ag.q_table state ag.n_actions)
                next_state ag.n_actions) reward next_state done) := by
      ring
    rw [habs, abs_mul, abs_of_nonneg (by linarith)]
    nlinarith [abs_nonneg
      (((List.lookup state
          (init_state (init_state ag.q_table state ag.n_actions) next_state
            ag.n_actions)).getD []).getD action 0 -
        td_target ag.gamma
          (init_state (init_state ag.q_table state ag.n_actions) next_state
            ag.n_actions) reward next_state done)]

/-- Witness for C5 on a fresh agent: the first update moves `Q[s][a]`
from `0` to `lr * target`, halving the distance to the target. -/
theorem train_short_memory_update_witness :
    ((0 : ℚ) ≤ demoAgent.lr ∧ demoAgent.lr ≤ 1 ∧ 0 < demoAgent.n_actions) ∧
    ((List.lookup [0] (train_short_memory demoAgent [0] 0 1 [1]
        false).q_table).getD []).getD 0 0 = 0 + demoAgent.lr * (1 - 0) ∧
    |0 + demoAgent.lr * (1 - 0) - 1| ≤ |(0 : ℚ) - 1| := by
  refine ⟨⟨by norm_num [demoAgent], by norm_num [demoAgent], by decide⟩, ?_⟩
  exact train_short_memory_update demoAgent [0] 0 1 [1] false
    (by norm_num [demoAgent]) (by norm_num [demoAgent])
    (by intro s v h; simp [demoAgent] at h) (by decide)
    [([0], [0, 0, 0]), ([1], [0, 0, 0])] 0 1 (by decide) (by decide)
    (by norm_num [td_target, pyMax, List.lookup, demoAgent]; decide)

/-- How `train_short_memory` updates epsilon: a decay gated on
`epsilon > epsilon_min`, with no clamping of the product. -/
theorem train_short_memory_epsilon (ag : Agent) (state : QState)
    (action : Nat) (reward : ℚ) (next_state : QState) (done : Bool) :
    (train_short_memory ag state action reward next_state done).epsilon =
      if ag.epsilon_min < ag.epsilon then ag.epsilon * ag.epsilon_decay
      else ag.epsilon := rfl

/-- Counterexample for C7: with `epsilon = 2`, `epsilon_min = 1` and
`epsilon_decay = 1/10`, the post-update epsilon is `1/5`, not
`max(epsilon_min, epsilon * epsilon_decay) = 1`, and it falls strictly
below `epsilon_min`. -/
theorem epsilon_no_floor_counterexample :
    demoSteepAgent.epsilon_min ≤ demoSteepAgent.epsilon ∧
    (train_short_memory demoSteepAgent [] 0 0 [] true).epsilon ≠
      max demoSteepAgent.epsilon_min
        (demoSteepAgent.epsilon * demoSteepAgent.epsilon_decay) ∧
    (train_short_memory demoSteepAgent [] 0 0 [] true).epsilon <
      demoSteepAgent.epsilon_min := by
  refine ⟨by norm_num [demoSteepAgent], ?_, ?_⟩
  · rw [train_short_memory_epsilon,
      if_pos (show demoSteepAgent.epsilon_min < demoSteepAgent.epsilon by
        norm_num [demoSteepAgent]),
      max_eq_left (show demoSteepAgent.epsilon * demoSteepAgent.epsilon_decay ≤
        demoSteepAgent.epsilon_min by norm_num [demoSteepAgent])]
    norm_num [demoSteepAgent]
  · rw [train_short_memory_epsilon,
      if_pos (show demoSteepAgent.epsilon_min < demoSteepAgent.epsilon by
        norm_num [demoSteepAgent])]
    norm_num [demoSteepAgent]

theorem epsilon_fold_lower_bound
    (ts : List (QState × Nat × ℚ × QState × Bool)) :
    ∀ ag : Agent, 0 ≤ ag.epsilon_decay →
      ag.epsilon_min * ag.epsilon_decay ≤ ag.epsilon →
      (ts.foldl (fun b t =>
          train_short_memory b t.1 t.2.1 t.2.2.1 t.2.2.2.1 t.2.2.2.2)
        ag).epsilon_min = ag.epsilon_min ∧
      (ts.foldl (fun b t =>
          train_short_memory b t.1 t.2.1 t.2.2.1 t.2.2.2.1 t.2.2.2.2)
        ag).epsilon_decay = ag.epsilon_decay ∧
      ag.epsilon_min * ag.epsilon_decay ≤
        (ts.foldl (fun b t =>
            train_short_memory b t.1 t.2.1 t.2.2.1 t.2.2.2.1 t.2.2.2.2)
          ag).epsilon := by
  induction ts with
  | nil => intro ag _ hi; exact ⟨rfl, rfl, hi⟩
  | cons t rest ih =>
      intro ag hd hi
      rw [List.foldl_cons]
      have hmin : (train_short_memory ag t.1 t.2.1 t.2.2.1 t.2.2.2.1
          t.2.2.2.2).epsilon_min = ag.epsilon_min := rfl
      have hdec : (train_short_memory ag t.1 t.2.1 t.2.2.1 t.2.2.2.1
          t.2.2.2.2).epsilon_decay = ag.epsilon_decay := rfl
      have hinv : ag.epsilon_min * ag.epsilon_decay ≤
          (train_short_memory ag t.1 t.2.1 t.2.2.1 t.2.2.2.1
            t.2.2.2.2).epsilon := by
        rw [train_short_memory_epsilon]
        split_ifs with hlt
        · exact mul_le_mul_of_nonneg_right (le_of_lt hlt) hd
        · exact hi
      have hrec := ih (train_short_memory ag t.1 t.2.1 t.2.2.1 t.2.2.2.1
          t.2.2.2.2) (by rw [hdec]; exact hd) (by rw [hmin, hdec]; exact hinv)
      refine ⟨by rw [hrec.1, hmin], by rw [hrec.2.1, hdec], ?_⟩
      have h3 := hrec.2.2
      rw [hmin, hdec] at h3
      exact h3

/-- **C7 (amended).** The epsilon update is a decay gated on
`epsilon > epsilon_min`, not a clamp: a single update multiplies epsilon
by the decay exactly when `epsilon > epsilon_min` and leaves it alone
otherwise, and over any sequence of updates epsilon never falls strictly
below `epsilon_min * epsilon_decay` (it can land below `epsilon_min`
itself, as the counterexample shows). -/
theorem epsilon_gate (ag : Agent) (state : QState) (action : Nat)
    (reward : ℚ) (next_state : QState) (done : Bool)
    (ts : List (QState × Nat × ℚ × QState × Bool))
    (hd0 : 0 ≤ ag.epsilon_decay) (hd1 : ag.epsilon_decay ≤ 1)
    (hm0 : 0 ≤ ag.epsilon_min) (he : ag.epsilon_min ≤ ag.epsilon) :
    ((ag.epsilon_min < ag.epsilon →
        (train_short_memory ag state action reward next_state done).epsilon =
          ag.epsilon * ag.epsilon_decay) ∧
     (ag.epsilon ≤ ag.epsilon_min →
        (train_short_memory ag state action reward next_state done).epsilon =
          ag.epsilon)) ∧
    ag.epsilon_min * ag.epsilon_decay ≤
      (ts.foldl (fun b t =>
          train_short_memory b t.1 t.2.1 t.2.2.1 t.2.2.2.1 t.2.2.2.2)
        ag).epsilon := by
  refine ⟨⟨?_, ?_⟩, ?_⟩
  · intro hlt
    rw [train_short_memory_epsilon, if_pos hlt]
  · intro hle
    rw [train_short_memory_epsilon, if_neg (not_lt.mpr hle)]
  · exact (epsilon_fold_lower_bound ts ag hd0
      (le_trans (mul_le_of_le_one_right hm0 hd1) he)).2.2

/-- Witness for C7's amended statement at a concrete agent and a
one-update sequence. -/
theorem epsilon_gate_witness :
    ((0 : ℚ) ≤ demoAgent.epsilon_decay ∧ demoAgent.epsilon_decay ≤ 1 ∧
      0 ≤ demoAgent.epsilon_min ∧
      demoAgent.epsilon_min ≤ demoAgent.epsilon) ∧
    demoAgent.epsilon_min * demoAgent.epsilon_decay ≤
      (([(([] : QState), 0, (0 : ℚ), ([] : QState), true)]).foldl
        (fun b t =>
          train_short_memory b t.1 t.2.1 t.2.2.1 t.2.2.2.1 t.2.2.2.2)
        demoAgent).epsilon := by
  refine ⟨⟨by norm_num [demoAgent], by norm_num [demoAgent],
    by norm_num [demoAgent], by norm_num [demoAgent]⟩, ?_⟩
  exact (epsilon_gate demoAgent [] 0 0 [] true
    [(([] : QState), 0, (0 : ℚ), ([] : QState), true)]
    (by norm_num [demoAgent]) (by norm_num [demoAgent])
    (by norm_num [demoAgent]) (by norm_num [demoAgent])).2

/-! ### The merge invariant -/

/-- Effect of the accumulation loop of `merge_q_tables` on a single key:
the merged entry is the running `vec_add`-fold of that key's vectors and
the count grows by the number of items carrying the key. -/
theorem merge_fold_lookup (es : List (QState × List ℚ)) :
    ∀ (merged : QTable) (counts : List (QState × Nat)) (key : QState),
      (List.lookup key merged).isSome = (List.lookup key counts).isSome →
      List.lookup key (es.foldl merge_step (merged, counts)).1 =
          accVals (List.lookup key merged) (entriesFor key es) ∧
      (List.lookup key (es.foldl merge_step (merged, counts)).2).getD 0 =
          (List.lookup key counts).getD 0 + (entriesFor key es).length ∧
      (List.lookup key (es.foldl merge_step (merged, counts)).1).isSome =
          (List.lookup key (es.foldl merge_step (merged, counts)).2).isSome := by
  induction es with
  | nil =>
      intro merged counts key hsync
      refine ⟨?_, by simp [entriesFor], hsync⟩
      cases hm : List.lookup key merged
      · simp [hm, accVals, entriesFor]
      · simp [hm, accVals, entriesFor]
  | cons e rest ih =>
      intro merged counts key hsync
      obtain ⟨ek, ev⟩ := e
      rw [List.foldl_cons]
      by_cases hek : ek = key
      · subst hek
        cases hm : List.lookup ek merged with
        | none =>
            have hc : List.lookup ek counts = none := by
              cases hc2 : List.lookup ek counts
              · rfl
              · rw [hm, hc2] at hsync; simp at hsync
            have hstep : merge_step (merged, counts) (ek, ev) =
                (dict_set merged ek ev, dict_set counts ek 1) := by
              simp [merge_step, hm]
            rw [hstep]
            have h1 : List.lookup ek (dict_set merged ek ev) = some ev :=
              lookup_dict_set_self _ _ _
            have h2 : List.lookup ek (dict_set counts ek 1) = some 1 :=
              lookup_dict_set_self _ _ _
            obtain ⟨ih1, ih2, ih3⟩ := ih (dict_set merged ek ev)
              (dict_set counts ek 1) ek (by rw [h1, h2]; rfl)
            refine ⟨?_, ?_, ih3⟩
            · rw [ih1, h1]
              simp [accVals, entriesFor, List.filterMap_cons]
            · rw [ih2, h2, hc]
              simp [entriesFor, List.filterMap_cons]
              omega
        | some v0 =>
            have hc : ∃ c, List.lookup ek counts = some c := by
              cases hc2 : List.lookup ek counts
              · rw [hm, hc2] at hsync; simp at hsync
              · exact ⟨_, rfl⟩
            obtain ⟨c, hc⟩ := hc
            have hstep : merge_step (merged, counts) (ek, ev) =
                (dict_set merged ek (vec_add v0 ev),
                 dict_set counts ek (c + 1)) := by
              simp [merge_step, hm, hc]
            rw [hstep]
            have h1 : List.lookup ek (dict_set merged ek (vec_add v0 ev)) =
                some (vec_add v0 ev) := lookup_dict_set_self _ _ _
            have h2 : List.lookup ek (dict_set counts ek (c + 1)) =
                some (c + 1) := lookup_dict_set_self _ _ _
            obtain ⟨ih1, ih2, ih3⟩ := ih (dict_set merged ek (vec_add v0 ev))
              (dict_set counts ek (c + 1)) ek (by rw [h1, h2]; rfl)
            refine ⟨?_, ?_, ih3⟩
            · rw [ih1, h1]
              simp [accVals, entriesFor, List.filterMap_cons, List.foldl_cons]
            · rw [ih2, h2, hc]
              simp [entriesFor, List.filterMap_cons]
              omega
      · have hkey : key ≠ ek := fun hh => hek hh.symm
        have hE : entriesFor key ((ek, ev) :: rest) = entriesFor key rest := by
          simp only [entriesFor, List.filterMap_cons, if_neg hek]
        cases hm : List.lookup ek merged with
        | none =>
            have hstep : merge_step (merged, counts) (ek, ev) =
                (dict_set merged ek ev, dict_set counts ek 1) := by
              simp [merge_step, hm]
            rw [hstep]
            have e1 : List.lookup key (dict_set merged ek ev) =
                List.lookup key merged := lookup_dict_set_ne _ _ _ _ hkey
            have e2 : List.lookup key (dict_set counts ek 1) =
                List.lookup key counts := lookup_dict_set_ne _ _ _ _ hkey
            obtain ⟨ih1, ih2, ih3⟩ := ih (dict_set merged ek ev)
              (dict_set counts ek 1) key (by rw [e1, e2]; exact hsync)
            exact ⟨by rw [ih1, e1, hE], by rw [ih2, e2, hE], ih3⟩
        | some v0 =>
            have hstep : merge_step (merged, counts) (ek, ev) =
                (dict_set merged ek (vec_add v0 ev),
                 dict_set counts ek ((List.lookup ek counts).getD 0 + 1)) := by
              simp [merge_step, hm]
            rw [hstep]
            have e1 : List.lookup key (dict_set merged ek (vec_add v0 ev)) =
                List.lookup key merged := lookup_dict_set_ne _ _ _ _ hkey
            have e2 : List.lookup key
                (dict_set counts ek ((List.lookup ek counts).getD 0 + 1)) =
                List.lookup key counts := lookup_dict_set_ne _ _ _ _ hkey
            obtain ⟨ih1, ih2, ih3⟩ := ih
              (dict_set merged ek (vec_add v0 ev))
              (dict_set counts ek ((List.lookup ek counts).getD 0 + 1)) key
              (by rw [e1, e2]; exact hsync)
            exact ⟨by rw [ih1, e1, hE], by rw [ih2, e2, hE], ih3⟩

theorem entriesFor_of_not_mem (key : QState)
    (t : List (QState × List ℚ)) (h : key ∉ t.map Prod.fst) :
    entriesFor key t = [] := by
  induction t with
  | nil => rfl
  | cons e rest ih =>
      simp only [List.map_cons, List.mem_cons] at h
      push_neg at h
      simp only [entriesFor, List.filterMap_cons]
      rw [if_neg (show ¬(e.1 = key) from fun hh => h.1 hh.symm)]
      simpa [entriesFor] using ih h.2

theorem entriesFor_eq_lookup (key : QState) (t : List (QState × List ℚ))
    (hnd : (t.map Prod.fst).Nodup) :
    entriesFor key t = (List.lookup key t).toList := by
  induction t with
  | nil => rfl
  | cons e rest ih =>
      obtain ⟨ek, ev⟩ := e
      simp only [List.map_cons, List.nodup_cons] at hnd
      by_cases h : ek = key
      · subst h
        simp only [entriesFor, List.filterMap_cons, if_pos rfl,
          List.lookup_cons, beq_self_eq_true]
        simpa [entriesFor] using entriesFor_of_not_mem ek rest hnd.1
      · have hb : (key == ek) = false :=
          beq_eq_false_iff_ne.mpr fun hh => h hh.symm
        simp only [entriesFor, List.filterMap_cons, if_neg h,
          List.lookup_cons, hb]
        exact ih hnd.2

theorem entriesFor_flatten (key : QState) (qs : List QTable)
    (hnd : ∀ t ∈ qs, (t.map Prod.fst).Nodup) :
    entriesFor key qs.flatten =
      qs.filterMap fun t => List.lookup key t := by
  induction qs with
  | nil => rfl
  | cons t rest ih =>
      have ihr := ih fun u hu => hnd u (List.mem_cons_of_mem _ hu)
      simp only [List.flatten_cons, entriesFor, List.filterMap_append,
        List.filterMap_cons] at ihr ⊢
      have ht := entriesFor_eq_lookup key t (hnd t (List.mem_cons_self _ _))
      simp only [entriesFor] at ht
      rw [ht, ihr]
      cases List.lookup key t <;> simp

theorem lookup_map_snd {α β γ : Type} [BEq α] [LawfulBEq α]
    (l : List (α × β)) (g : α → β → γ) (key : α) :
    List.lookup key (l.map fun p => (p.1, g p.1 p.2)) =
      (List.lookup key l).map (g key) := by
  induction l with
  | nil => rfl
  | cons e rest ih =>
      obtain ⟨k, v⟩ := e
      rw [List.map_cons, List.lookup_cons, List.lookup_cons]
      cases hbe : (key == k)
      · simpa [hbe] using ih
      · have hk : key = k := eq_of_beq hbe
        subst hk
        simp

theorem vec_add_length (a b : List ℚ) :
    (vec_add a b).length = min a.length b.length := by
  simp [vec_add]

theorem vec_add_getD (a b : List ℚ) (i : Nat) (hia : i < a.length)
    (hib : i < b.length) :
    (vec_add a b).getD i 0 = a.getD i 0 + b.getD i 0 := by
  have hlen : i < (vec_add a b).length := by
    rw [vec_add_length]
    omega
  rw [List.getD_eq_getElem _ _ hlen, List.getD_eq_getElem _ _ hia,
    List.getD_eq_getElem _ _ hib]
  simp [vec_add]

theorem foldl_vec_add_length (vs : List (List ℚ)) :
    ∀ v0 : List ℚ, (∀ v ∈ vs, v.length = v0.length) →
      (vs.foldl vec_add v0).length = v0.length := by
  induction vs with
  | nil => intro v0 _; rfl
  | cons v rest ih =>
      intro v0 h
      rw [List.foldl_cons]
      have h1 : (vec_add v0 v).length = v0.length := by
        rw [vec_add_length, h v (List.mem_cons_self _ _), min_self]
      rw [ih (vec_add v0 v)
        (fun w hw => by rw [h1]; exact h w (List.mem_cons_of_mem _ hw)), h1]

theorem foldl_vec_add_getD (vs : List (List ℚ)) :
    ∀ v0 : List ℚ, (∀ v ∈ vs, v.length = v0.length) →
      ∀ i, i < v0.length →
      (vs.foldl vec_add v0).getD i 0 =
        v0.getD i 0 + (vs.map fun v => v.getD i 0).sum := by
  induction vs with
  | nil => intro v0 _ i _; simp
  | cons v rest ih =>
      intro v0 h i hi
      rw [List.foldl_cons]
      have h1 : (vec_add v0 v).length = v0.length := by
        rw [vec_add_length, h v (List.mem_cons_self _ _), min_self]
      rw [ih (vec_add v0 v)
        (fun w hw => by rw [h1]; exact h w (List.mem_cons_of_mem _ hw)) i
        (by rw [h1]; exact hi)]
      rw [vec_add_getD v0 v i hi
        (by rw [h v (List.mem_cons_self _ _)]; exact hi)]
      simp only [List.map_cons, List.sum_cons]
      ring

/-- **C6.** `merge_q_tables` is a union-merge with per-key averaging: a
key present in none of the worker tables is absent from the result, and a
key present in `k ≥ 1` tables maps to the elementwise arithmetic mean of
exactly those `k` value vectors. -/
theorem merge_q_tables_spec (qs : List QTable) (key : QState)
    (hnd : ∀ t ∈ qs, (t.map Prod.fst).Nodup)
    (hlen : ∀ t ∈ qs, ∀ p ∈ t, p.2.length = 3) :
    ((qs.filterMap fun t => List.lookup key t) = [] →
      List.lookup key (merge_q_tables qs) = none) ∧
    (∀ v vs, (qs.filterMap fun t => List.lookup key t) = v :: vs →
      ∃ m, List.lookup key (merge_q_tables qs) = some m ∧
        m.length = 3 ∧
        ∀ i, i < 3 → m.getD i 0 =
          ((v :: vs).map fun w => w.getD i 0).sum /
            (((v :: vs).length : Nat) : ℚ)) := by
  have hfold : qs.foldl (fun acc table => table.foldl merge_step acc)
      (([], []) : QTable × List (QState × Nat)) =
      qs.flatten.foldl merge_step ([], []) :=
    (List.foldl_flatten merge_step ([], []) qs).symm
  obtain ⟨h1, h2, _⟩ := merge_fold_lookup qs.flatten [] [] key rfl
  have hE : entriesFor key qs.flatten =
      qs.filterMap fun t => List.lookup key t := entriesFor_flatten key qs hnd
  have hmq : List.lookup key (merge_q_tables qs) =
      (List.lookup key (qs.flatten.foldl merge_step ([], [])).1).map
        fun v => v.map fun x =>
          x / ((List.lookup key
              (qs.flatten.foldl merge_step ([], [])).2).getD 0 : ℚ) := by
    simp only [merge_q_tables, hfold]
    exact lookup_map_snd _ (fun (k : QState) (v : List ℚ) =>
      List.map (fun x => x /
        (((List.lookup k (qs.flatten.foldl merge_step ([], [])).2).getD 0 :
          Nat) : ℚ)) v) key
  constructor
  · intro hnil
    rw [hmq, h1, hE, hnil]
    rfl
  · intro v vs hcons
    have hvlen : ∀ w ∈ qs.filterMap (fun t => List.lookup key t),
        w.length = 3 := by
      intro w hw
      obtain ⟨t, ht, hlk⟩ := List.mem_filterMap.mp hw
      obtain ⟨l₁, l₂, hdec, -⟩ := List.lookup_eq_some_iff.mp hlk
      exact hlen t ht (key, w) (by rw [hdec]; simp)
    rw [hcons] at hvlen
    have hv3 : v.length = 3 := hvlen v (List.mem_cons_self _ _)
    have hvs3 : ∀ w ∈ vs, w.length = v.length := by
      intro w hw
      rw [hv3]
      exact hvlen w (List.mem_cons_of_mem _ hw)
    have hmerged : List.lookup key
        (qs.flatten.foldl merge_step ([], [])).1 =
        some (vs.foldl vec_add v) := by
      rw [h1, hE, hcons]
      rfl
    have hcount : (List.lookup key
        (qs.flatten.foldl merge_step ([], [])).2).getD 0 =
        (v :: vs).length := by
      rw [h2, hE, hcons]
      simp
    have hflen : (vs.foldl vec_add v).length = 3 := by
      rw [foldl_vec_add_length vs v hvs3, hv3]
    refine ⟨(vs.foldl vec_add v).map fun x =>
        x / (((v :: vs).length : Nat) : ℚ), ?_, ?_, ?_⟩
    · rw [hmq, hmerged, hcount]
      rfl
    · simp [hflen]
    · intro i hi
      have hilt : i < ((vs.foldl vec_add v).map fun x =>
          x / (((v :: vs).length : Nat) : ℚ)).length := by
        simp [hflen]
        omega
      rw [List.getD_eq_getElem _ _ hilt, List.getElem_map,
        ← List.getD_eq_getElem _ _ (by rw [hflen]; exact hi)]
      rw [foldl_vec_add_getD vs v hvs3 i (by rw [hv3]; exact hi)]
      simp only [List.map_cons, List.sum_cons]

/-- Witness for C6: merging two worker tables, one containing the key
`[0]` with vector `[1,2,3]` and the other with `[3,4,5]` (plus an
unrelated key), yields the elementwise mean `[2,3,4]` — its first entry
is `2`. -/
theorem merge_q_tables_spec_witness :
    ((List.lookup [0] (merge_q_tables
        [[([0], [1, 2, 3])], [([0], [3, 4, 5]), ([1], [0, 0, 1])]])).getD
      []).getD 0 0 = 2 := by
  obtain ⟨m, hm, -, hgetD⟩ := (merge_q_tables_spec
    [[([0], [1, 2, 3])], [([0], [3, 4, 5]), ([1], [0, 0, 1])]] [0]
    (by decide) (by decide)).2 [1, 2, 3] [[3, 4, 5]] (by decide)
  rw [hm, Option.getD_some, hgetD 0 (by norm_num)]
  norm_num

end Aboltabol
